import Mathlib

/-!
Verification of the streaming line tokenizer (`ParseSimpleStream` and the
`LineConsumer` interface of the Objective-C protobuf compiler) and of the
deprecation-attribute helper `GetOptionalDeprecatedAttribute` from
`helpers.h`.

The scanner implementation file (`line_consumer.cc`/`line_consumer.h`) is not
part of the sources available here, only its unit test
(`line_consumer_unittest.cc`) and `helpers.h` are.  The scanner is therefore
modelled from the specification; each such definition is marked
`Modelled from the spec:`.  `GetOptionalDeprecatedAttribute` is translated
directly from `helpers.h`.

Lines and raw input are modelled as `List Char`; error messages as `String`.
-/

/-- Modelled from the spec: result of a `ConsumeLine` call (missing
`line_consumer.h`).  The consumer either accepts the line or rejects it,
optionally supplying a reason string (`out_error`). -/
inductive ConsumeResult where
  | accept : ConsumeResult
  | reject : Option String → ConsumeResult
deriving DecidableEq

/-- Modelled from the spec: the `LineConsumer` capability interface (missing
`line_consumer.h`).  A consumer may carry state of type `σ` (the C++ object's
fields); `consumeLine` receives the current state and the stripped line and
returns the updated state together with accept/reject. -/
structure LineConsumer (σ : Type) where
  consumeLine : σ → List Char → σ × ConsumeResult

/-- Outcome of a whole scan: success, or failure with a formatted error
string. -/
inductive ScanResult where
  | ok : ScanResult
  | err : String → ScanResult
deriving DecidableEq

/-- Whitespace trimmed by the scanner: ASCII space and tab only. -/
def isWsp (c : Char) : Bool :=
  c == ' ' || c == '\t'

/-- Modelled from the spec: truncate a logical line at the first `#`
character, discarding it and everything after it. -/
def stripComment (s : List Char) : List Char :=
  s.takeWhile (fun c => c != '#')

/-- Modelled from the spec: trim leading and trailing ASCII space/tab
characters from both ends. -/
def trimWsp (s : List Char) : List Char :=
  List.rdropWhile isWsp (s.dropWhile isWsp)

/-- Modelled from the spec: derive the StrippedLine of a LogicalLine —
comment truncation, then trimming.  May be empty. -/
def stripLine (s : List Char) : List Char :=
  trimWsp (stripComment s)

/-- The single-quote character, used in the unit test's rejection reasons. -/
def squote : String :=
  String.mk [Char.ofNat 39]

/-- Modelled from the spec: the error string produced when the consumer
rejects a line: `error: <name> Line <n>, <message>`, where the message is the
consumer-supplied reason, or the fixed diagnostic text when the consumer set
none. -/
def mkError (name : String) (n : Nat) (r : Option String) : String :=
  "error: " ++ name ++ " Line " ++ Nat.repr n ++ ", " ++
    (match r with
     | some m => m
     | none => "ConsumeLine failed without setting an error.")

/-- Outcome of handling one logical line: keep scanning (with updated
consumer state and the delivered stripped line, if any), or stop with a
formatted error. -/
inductive LineOutcome (σ : Type) where
  | next : σ → Option (List Char) → LineOutcome σ
  | stop : String → LineOutcome σ

/-- Modelled from the spec: process one LogicalLine at ordinal `n` — strip
it, drop it when empty, otherwise hand it to the consumer; a rejection turns
into a formatted error. -/
def handleLine {σ : Type} (C : LineConsumer σ) (name : String)
    (line : List Char) (n : Nat) (s : σ) : LineOutcome σ :=
  let stripped := stripLine line
  if stripped = [] then
    .next s none
  else
    match C.consumeLine s stripped with
    | (s2, ConsumeResult.accept) => .next s2 (some stripped)
    | (_, ConsumeResult.reject r) => .stop (mkError name n r)

/-- Modelled from the spec: split a byte sequence at each newline; returns
the completed lines (newline excluded) and the trailing unresolved
remainder. -/
def splitLines : List Char → List (List Char) × List Char
  | [] => ([], [])
  | c :: rest =>
    let p := splitLines rest
    if c = '\n' then
      ([] :: p.1, p.2)
    else
      match p.1 with
      | [] => ([], c :: p.2)
      | l :: ls => ((c :: l) :: ls, p.2)

/-- The LogicalLines of a complete input: all newline-terminated lines, plus
the trailing remainder as one final line when it is non-empty. -/
def logicalLines (input : List Char) : List (List Char) :=
  (splitLines input).1 ++
    (if (splitLines input).2 = [] then [] else [(splitLines input).2])

/-- Modelled from the spec: feed a list of completed LogicalLines to the
consumer in order, ordinals counting up from `n`; `out` is the trace of lines
delivered so far.  Returns either the continuation state (next ordinal,
consumer state, trace) or the error with the trace at the point of
rejection. -/
def feedLines {σ : Type} (C : LineConsumer σ) (name : String) :
    List (List Char) → Nat → σ → List (List Char) →
      (Nat × σ × List (List Char)) ⊕ (String × List (List Char))
  | [], n, s, out => Sum.inl (n, s, out)
  | l :: ls, n, s, out =>
    match handleLine C name l n s with
    | .next s2 d => feedLines C name ls (n + 1) s2 (out ++ d.toList)
    | .stop e => Sum.inr (e, out)

/-- Modelled from the spec: source exhausted — when the unresolved buffer is
non-empty, treat it as one final LogicalLine at the current ordinal and
process it exactly once. -/
def finishScan {σ : Type} (C : LineConsumer σ) (name : String)
    (buf : List Char) (n : Nat) (s : σ) (out : List (List Char)) :
    List (List Char) × ScanResult :=
  if buf = [] then
    (out, .ok)
  else
    match handleLine C name buf n s with
    | .next _ d => (out ++ d.toList, .ok)
    | .stop e => (out, .err e)

/-- Modelled from the spec: the chunk loop.  Pull the next chunk (an empty
chunk or an exhausted source ends input), append it to the unresolved buffer,
resolve completed lines at each newline and process them, then carry the
remainder to the next chunk; at end of input flush the remainder. -/
def scanChunks {σ : Type} (C : LineConsumer σ) (name : String) :
    List (List Char) → List Char → Nat → σ → List (List Char) →
      List (List Char) × ScanResult
  | [], buf, n, s, out => finishScan C name buf n s out
  | chunk :: rest, buf, n, s, out =>
    if chunk = [] then
      finishScan C name buf n s out
    else
      let p := splitLines (buf ++ chunk)
      match feedLines C name p.1 n s out with
      | Sum.inl (n2, s2, out2) => scanChunks C name rest p.2 n2 s2 out2
      | Sum.inr (e, out2) => (out2, .err e)

/-- Modelled from the spec: `ParseSimpleStream` — scan a chunked byte source
under stream name `name`, delivering stripped non-empty lines to consumer `C`
(initial state `s0`).  Returns the trace of delivered lines and the
success/failure outcome. -/
def ParseSimpleStream {σ : Type} (chunks : List (List Char)) (name : String)
    (C : LineConsumer σ) (s0 : σ) : List (List Char) × ScanResult :=
  scanChunks C name chunks [] 1 s0 []

/-- Scanning the whole input delivered as a single buffer. -/
def scanAll {σ : Type} (input : List Char) (name : String)
    (C : LineConsumer σ) (s0 : σ) : List (List Char) × ScanResult :=
  ParseSimpleStream [input] name C s0

/-- Reference semantics: process a list of LogicalLines sequentially,
succeeding when all are handled. -/
def runLines {σ : Type} (C : LineConsumer σ) (name : String)
    (ls : List (List Char)) (n : Nat) (s : σ) (out : List (List Char)) :
    List (List Char) × ScanResult :=
  match feedLines C name ls n s out with
  | Sum.inl (_, _, out2) => (out2, .ok)
  | Sum.inr (e, out2) => (out2, .err e)

/-- The unit test's always-accepting collector (`TestLineCollector` with no
reject line): state is the list of lines the consumer has received. -/
def collectorConsumer : LineConsumer (List (List Char)) where
  consumeLine := fun s l => (s ++ [l], ConsumeResult.accept)

/-- The unit test's rejecting collector (`TestLineCollector` with a reject
line): accept and record every line except `target`; reject `target`,
supplying the reason `Rejected '<target>'` unless `skipMsg` is set. -/
def testLineCollector (target : List Char) (skipMsg : Bool) :
    LineConsumer (List (List Char)) where
  consumeLine := fun s l =>
    if l = target then
      (s, ConsumeResult.reject
        (if skipMsg then none
         else some ("Rejected " ++ squote ++ String.mk target ++ squote)))
    else
      (s ++ [l], ConsumeResult.accept)

/-- Glue an unresolved remainder onto the front of a later split: the
remainder extends the first completed line of the later part, or the
later remainder when no line was completed. -/
def glue (t : List Char) (r : List (List Char) × List Char) :
    List (List Char) × List Char :=
  match r with
  | ([], tl) => ([], t ++ tl)
  | (l :: ls, tl) => ((t ++ l) :: ls, tl)

/-- Descriptor options as used by `GetOptionalDeprecatedAttribute`: only the
`deprecated` flag matters. -/
structure FileDescriptor where
  name : String
  optionsDeprecated : Bool
deriving DecidableEq

/-- The part of a descriptor read by `GetOptionalDeprecatedAttribute`: its
options' `deprecated` flag, its full name and its source file. -/
structure Descriptor where
  optionsDeprecated : Bool
  fullName : String
  file : FileDescriptor
deriving DecidableEq

/-- Translated from `helpers.h` (`GetOptionalDeprecatedAttribute`): returns
the deprecation attribute text for a descriptor, optionally considering
file-level deprecation, with an optional leading space and trailing
newline. -/
def GetOptionalDeprecatedAttribute (descriptor : Descriptor)
    (file : Option FileDescriptor := none) (preSpace : Bool := true)
    (postNewline : Bool := false) : String :=
  let isDeprecated := descriptor.optionsDeprecated
  let isFileLevelDeprecation :=
    if !isDeprecated then
      match file with
      | some f => f.optionsDeprecated
      | none => false
    else false
  let isDeprecated2 := isDeprecated || isFileLevelDeprecation
  if isDeprecated2 then
    let sourceFile := descriptor.file
    let message :=
      if isFileLevelDeprecation then
        sourceFile.name ++ " is deprecated."
      else
        descriptor.fullName ++ " is deprecated (see " ++ sourceFile.name ++ ")."
    let result := "GPB_DEPRECATED_MSG(\"" ++ message ++ "\")"
    let result2 := if preSpace then " " ++ result else result
    let result3 := if postNewline then result2 ++ "\n" else result2
    result3
  else
    ""

lemma splitLines_no_nl (s : List Char) : '\n' ∉ (splitLines s).2 := by
  induction s with
  | nil => simp [splitLines]
  | cons c rest ih =>
    simp only [splitLines]
    by_cases hc : c = '\n'
    · simp [hc, ih]
    · simp only [if_neg hc]
      cases hp : (splitLines rest).1 with
      | nil =>
        simp only []
        intro hmem
        rcases List.mem_cons.mp hmem with h1 | h2
        · exact hc h1.symm
        · exact ih h2
      | cons l ls => simpa using ih

lemma splitLines_of_no_nl (s : List Char) (h : '\n' ∉ s) :
    splitLines s = ([], s) := by
  induction s with
  | nil => simp [splitLines]
  | cons c rest ih =>
    have hc : c ≠ '\n' := fun hh => h (hh ▸ List.mem_cons_self c rest)
    have hrest : '\n' ∉ rest := fun hh => h (List.mem_cons_of_mem c hh)
    simp only [splitLines, if_neg hc, ih hrest]

lemma glue_nil (r : List (List Char) × List Char) : glue [] r = r := by
  rcases r with ⟨ls, tl⟩
  cases ls <;> simp [glue]

lemma splitLines_append (a b : List Char) :
    splitLines (a ++ b) =
      ((splitLines a).1 ++ (glue (splitLines a).2 (splitLines b)).1,
        (glue (splitLines a).2 (splitLines b)).2) := by
  induction a with
  | nil =>
    simp [splitLines, glue_nil]
  | cons c a2 ih =>
    simp only [List.cons_append, splitLines, List.append_eq, ih]
    by_cases hc : c = '\n'
    · simp [hc]
    · simp only [if_neg hc]
      rcases hb : splitLines b with ⟨bl, btl⟩
      cases ha : (splitLines a2).1 with
      | nil =>
        cases bl with
        | nil => simp [glue, ha, hb]
        | cons l ls => simp [glue, ha, hb]
      | cons l ls => simp [glue, ha, hb]

lemma splitLines_glue (t b : List Char) (h : '\n' ∉ t) :
    splitLines (t ++ b) = glue t (splitLines b) := by
  rw [splitLines_append, splitLines_of_no_nl t h]
  simp

lemma logicalLines_append (a b : List Char) :
    logicalLines (a ++ b) =
      (splitLines a).1 ++ logicalLines ((splitLines a).2 ++ b) := by
  have h2 : '\n' ∉ (splitLines a).2 := splitLines_no_nl a
  simp only [logicalLines, splitLines_append a b,
    splitLines_glue (splitLines a).2 b h2, List.append_assoc]

lemma feedLines_append {σ : Type} (C : LineConsumer σ) (name : String)
    (ls1 ls2 : List (List Char)) (n : Nat) (s : σ) (out : List (List Char)) :
    feedLines C name (ls1 ++ ls2) n s out =
      match feedLines C name ls1 n s out with
      | Sum.inl (n2, s2, out2) => feedLines C name ls2 n2 s2 out2
      | Sum.inr r => Sum.inr r := by
  induction ls1 generalizing n s out with
  | nil => simp [feedLines]
  | cons l ls ih =>
    simp only [List.cons_append, feedLines]
    cases handleLine C name l n s with
    | next s2 d => simp [ih]
    | stop e => simp

lemma runLines_append {σ : Type} (C : LineConsumer σ) (name : String)
    (ls1 ls2 : List (List Char)) (n : Nat) (s : σ) (out : List (List Char)) :
    runLines C name (ls1 ++ ls2) n s out =
      match feedLines C name ls1 n s out with
      | Sum.inl (n2, s2, out2) => runLines C name ls2 n2 s2 out2
      | Sum.inr (e, out2) => (out2, .err e) := by
  simp only [runLines, feedLines_append]
  cases h : feedLines C name ls1 n s out with
  | inl v => rcases v with ⟨n2, s2, out2⟩; simp [runLines]
  | inr r => rcases r with ⟨e, out2⟩; simp

lemma finishScan_eq_runLines {σ : Type} (C : LineConsumer σ) (name : String)
    (buf : List Char) (n : Nat) (s : σ) (out : List (List Char)) :
    finishScan C name buf n s out =
      runLines C name (if buf = [] then [] else [buf]) n s out := by
  by_cases hb : buf = []
  · simp [finishScan, hb, runLines, feedLines]
  · simp only [finishScan, if_neg hb, runLines, feedLines]
    cases handleLine C name buf n s with
    | next s2 d => simp [feedLines]
    | stop e => simp

lemma scanChunks_eq_runLines {σ : Type} (C : LineConsumer σ) (name : String)
    (chunks : List (List Char)) (h : ∀ c ∈ chunks, c ≠ [])
    (buf : List Char) (hbuf : '\n' ∉ buf) (n : Nat) (s : σ)
    (out : List (List Char)) :
    scanChunks C name chunks buf n s out =
      runLines C name (logicalLines (buf ++ chunks.flatten)) n s out := by
  induction chunks generalizing buf n s out with
  | nil =>
    simp only [scanChunks, List.flatten_nil, List.append_nil]
    rw [finishScan_eq_runLines]
    have := splitLines_of_no_nl buf hbuf
    simp [logicalLines, this]
  | cons chunk rest ih =>
    have hchunk : chunk ≠ [] := h chunk (List.mem_cons_self _ _)
    have hrest : ∀ c ∈ rest, c ≠ [] := fun c hc => h c (List.mem_cons_of_mem _ hc)
    simp only [scanChunks, if_neg hchunk, List.flatten_cons]
    have hlines : logicalLines (buf ++ (chunk ++ rest.flatten)) =
        (splitLines (buf ++ chunk)).1 ++
          logicalLines ((splitLines (buf ++ chunk)).2 ++ rest.flatten) := by
      rw [← List.append_assoc, logicalLines_append]
    rw [hlines, runLines_append]
    cases hf : feedLines C name (splitLines (buf ++ chunk)).1 n s out with
    | inl v =>
      rcases v with ⟨n2, s2, out2⟩
      simp only []
      exact ih hrest _ (splitLines_no_nl _) n2 s2 out2
    | inr r =>
      rcases r with ⟨e, out2⟩
      simp

lemma parse_eq_runLines {σ : Type} (C : LineConsumer σ) (name : String)
    (chunks : List (List Char)) (h : ∀ c ∈ chunks, c ≠ []) (s0 : σ) :
    ParseSimpleStream chunks name C s0 =
      runLines C name (logicalLines chunks.flatten) 1 s0 [] := by
  have := scanChunks_eq_runLines C name chunks h [] (by simp) 1 s0 []
  simpa [ParseSimpleStream] using this

lemma scanAll_eq_runLines {σ : Type} (C : LineConsumer σ) (name : String)
    (input : List Char) (s0 : σ) :
    scanAll input name C s0 =
      runLines C name (logicalLines input) 1 s0 [] := by
  by_cases hi : input = []
  · subst hi
    simp [scanAll, ParseSimpleStream, scanChunks, finishScan, logicalLines,
      splitLines, runLines, feedLines]
  · have := parse_eq_runLines C name [input] (by simpa using hi) s0
    simpa [scanAll] using this

lemma handleLine_stop {σ : Type} {C : LineConsumer σ} {name : String}
    {line : List Char} {n : Nat} {s : σ} {e : String}
    (h : handleLine C name line n s = .stop e) :
    stripLine line ≠ [] ∧ ∃ s2 r,
      C.consumeLine s (stripLine line) = (s2, ConsumeResult.reject r) ∧
      e = mkError name n r := by
  unfold handleLine at h
  by_cases hs : stripLine line = []
  · simp [hs] at h
  · refine ⟨hs, ?_⟩
    rcases hc : C.consumeLine s (stripLine line) with ⟨s2, cr⟩
    cases cr with
    | accept => simp [hs, hc] at h
    | reject r =>
      simp only [hs, hc, if_neg hs] at h
      exact ⟨s2, r, rfl, (LineOutcome.stop.injEq _ _).mp h.symm⟩

lemma feedLines_err {σ : Type} (C : LineConsumer σ) (name : String)
    (ls : List (List Char)) :
    ∀ (n : Nat) (s : σ) (out out2 : List (List Char)) (e : String),
      feedLines C name ls n s out = Sum.inr (e, out2) →
      ∃ j, ∃ hj : j < ls.length, ∃ s1 s2 r,
        stripLine (ls.get ⟨j, hj⟩) ≠ [] ∧
        C.consumeLine s1 (stripLine (ls.get ⟨j, hj⟩)) =
          (s2, ConsumeResult.reject r) ∧
        e = mkError name (n + j) r ∧
        out2.length ≤ out.length + j := by
  induction ls with
  | nil =>
    intro n s out out2 e h
    simp [feedLines] at h
  | cons l ls ih =>
    intro n s out out2 e h
    simp only [feedLines] at h
    cases hh : handleLine C name l n s with
    | next s2 d =>
      rw [hh] at h
      obtain ⟨j, hj, t1, t2, r, h1, h2, h3, h4⟩ :=
        ih (n + 1) s2 (out ++ d.toList) out2 e h
      refine ⟨j + 1, by simpa using Nat.succ_lt_succ hj, t1, t2, r, ?_, ?_, ?_, ?_⟩
      · simpa using h1
      · simpa using h2
      · rw [h3]
        congr 1
        omega
      · have hd : d.toList.length ≤ 1 := by cases d <;> simp
        have := h4
        simp only [List.length_append] at this
        omega
    | stop e2 =>
      rw [hh] at h
      simp only [Sum.inr.injEq, Prod.mk.injEq] at h
      obtain ⟨he, hout⟩ := h
      obtain ⟨hne, s2, r, hc, herr⟩ := handleLine_stop hh
      refine ⟨0, by simp, s, s2, r, by simpa using hne, by simpa using hc, ?_, ?_⟩
      · rw [← he, herr]
        congr 1
      · rw [← hout]
        omega

lemma runLines_err {σ : Type} {C : LineConsumer σ} {name : String}
    {ls : List (List Char)} {n : Nat} {s : σ} {out out2 : List (List Char)}
    {e : String} (h : runLines C name ls n s out = (out2, .err e)) :
    ∃ j, ∃ hj : j < ls.length, ∃ s1 s2 r,
      stripLine (ls.get ⟨j, hj⟩) ≠ [] ∧
      C.consumeLine s1 (stripLine (ls.get ⟨j, hj⟩)) =
        (s2, ConsumeResult.reject r) ∧
      e = mkError name (n + j) r ∧
      out2.length ≤ out.length + j := by
  unfold runLines at h
  cases hf : feedLines C name ls n s out with
  | inl v =>
    rcases v with ⟨n2, s2, o2⟩
    rw [hf] at h
    simp at h
  | inr r =>
    rcases r with ⟨e2, o2⟩
    rw [hf] at h
    simp only [Prod.mk.injEq, ScanResult.err.injEq] at h
    obtain ⟨ho, he⟩ := h
    subst ho he
    exact feedLines_err C name ls n s out o2 e2 hf

lemma scanAll_err {σ : Type} {C : LineConsumer σ} {name : String}
    {input : List Char} {s0 : σ} {out : List (List Char)} {e : String}
    (h : scanAll input name C s0 = (out, .err e)) :
    ∃ j, ∃ hj : j < (logicalLines input).length, ∃ s1 s2 r,
      stripLine ((logicalLines input).get ⟨j, hj⟩) ≠ [] ∧
      C.consumeLine s1 (stripLine ((logicalLines input).get ⟨j, hj⟩)) =
        (s2, ConsumeResult.reject r) ∧
      e = mkError name (j + 1) r ∧
      out.length ≤ j := by
  rw [scanAll_eq_runLines] at h
  obtain ⟨j, hj, s1, s2, r, h1, h2, h3, h4⟩ := runLines_err h
  refine ⟨j, hj, s1, s2, r, h1, h2, ?_, by simpa using h4⟩
  rw [h3]
  congr 1
  omega

lemma mem_trimWsp {x : Char} {l : List Char} (h : x ∈ trimWsp l) : x ∈ l := by
  unfold trimWsp at h
  have hp := List.rdropWhile_prefix isWsp (l.dropWhile isWsp)
  have h1 : x ∈ l.dropWhile isWsp := hp.sublist.subset h
  have hs := List.dropWhile_suffix (l := l) isWsp
  exact hs.sublist.subset h1

lemma mem_stripComment {x : Char} {l : List Char} (h : x ∈ stripComment l) :
    x ≠ '#' := by
  have := List.mem_takeWhile_imp h
  simpa using this

lemma stripComment_of_all {l : List Char} (h : ∀ c ∈ l, c ≠ '#') :
    stripComment l = l := by
  unfold stripComment
  rw [List.takeWhile_eq_self_iff]
  intro x hx
  simpa using h x hx

lemma dropWhile_trimWsp (l : List Char) :
    (trimWsp l).dropWhile isWsp = trimWsp l := by
  unfold trimWsp
  rcases ht : List.rdropWhile isWsp (l.dropWhile isWsp) with _ | ⟨a, t2⟩
  · simp
  · obtain ⟨rest, hrest⟩ := List.rdropWhile_prefix isWsp (l.dropWhile isWsp)
    rw [ht] at hrest
    have hmm : (l.dropWhile isWsp).dropWhile isWsp = l.dropWhile isWsp :=
      List.dropWhile_idempotent isWsp l
    rw [← hrest] at hmm
    have ha : isWsp a = false := by
      by_contra hcon
      have hpa : isWsp a = true := by simpa using hcon
      rw [List.cons_append, List.dropWhile_cons, hpa] at hmm
      simp only [if_true] at hmm
      have hle := (List.dropWhile_suffix (l := t2 ++ rest) isWsp).sublist.length_le
      rw [hmm] at hle
      simp at hle
    rw [List.dropWhile_cons, ha]
    simp

lemma trimWsp_idem (l : List Char) : trimWsp (trimWsp l) = trimWsp l := by
  conv_lhs => rw [trimWsp, dropWhile_trimWsp]
  conv_lhs => rw [trimWsp]
  exact List.rdropWhile_idempotent isWsp (l.dropWhile isWsp)

lemma stripLine_idem (s : List Char) : stripLine (stripLine s) = stripLine s := by
  have h1 : stripComment (stripLine s) = stripLine s := by
    apply stripComment_of_all
    intro c hc
    exact mem_stripComment (mem_trimWsp hc)
  show trimWsp (stripComment (stripLine s)) = stripLine s
  rw [h1]
  show trimWsp (trimWsp (stripComment s)) = trimWsp (stripComment s)
  exact trimWsp_idem (stripComment s)

lemma stripLine_hash (rest : List Char) : stripLine ('#' :: rest) = [] := by
  simp [stripLine, stripComment, List.takeWhile_cons, trimWsp]

lemma stripComment_append_hash (a b : List Char) (h : '#' ∉ a) :
    stripComment (a ++ '#' :: b) = a := by
  induction a with
  | nil => simp [stripComment, List.takeWhile_cons]
  | cons c a2 ih =>
    have hc : c ≠ '#' := fun hh => h (hh ▸ List.mem_cons_self c a2)
    have ha2 : '#' ∉ a2 := fun hh => h (List.mem_cons_of_mem c hh)
    simp only [List.cons_append, stripComment, List.takeWhile_cons] at *
    simp [hc, ih ha2]

lemma feedLines_collector (name : String) (ls : List (List Char)) :
    ∀ (n : Nat) (s out : List (List Char)),
      feedLines collectorConsumer name ls n s out =
        Sum.inl (n + ls.length,
          s ++ (ls.map stripLine).filter (fun l => l != []),
          out ++ (ls.map stripLine).filter (fun l => l != [])) := by
  induction ls with
  | nil => intro n s out; simp [feedLines]
  | cons l ls ih =>
    intro n s out
    by_cases hl : stripLine l = []
    · have hh : handleLine collectorConsumer name l n s = .next s none := by
        simp [handleLine, hl]
      simp only [feedLines, hh, Option.toList, List.append_nil, ih]
      simp [hl]
      omega
    · have hh : handleLine collectorConsumer name l n s =
          .next (s ++ [stripLine l]) (some (stripLine l)) := by
        simp [handleLine, hl, collectorConsumer]
      simp only [feedLines, hh, Option.toList, ih]
      have hne : (stripLine l != []) = true := by simpa using hl
      simp [hne, List.append_assoc]
      omega

lemma mkError_ne_empty (name : String) (n : Nat) (r : Option String) :
    mkError name n r ≠ "" := by
  intro h
  unfold mkError at h
  have hl := congrArg String.length h
  simp only [String.length_append] at hl
  have h7 : "error: ".length = 7 := by decide
  have h0 : "".length = 0 := by decide
  omega

lemma stripLine_nil : stripLine [] = [] := rfl

lemma splitLines_concat_nl (xs : List Char) :
    splitLines (xs ++ ['\n']) =
      ((splitLines xs).1 ++ [(splitLines xs).2], []) := by
  rw [splitLines_append]
  have h2 : splitLines ['\n'] = ([[]], []) := by simp [splitLines]
  rw [h2]
  simp [glue]

lemma logicalLines_concat_nl (xs : List Char) :
    logicalLines (xs ++ ['\n']) = (splitLines xs).1 ++ [(splitLines xs).2] := by
  rw [logicalLines, splitLines_concat_nl]
  simp

lemma runLines_concat_nil {σ : Type} (C : LineConsumer σ) (name : String)
    (ls : List (List Char)) (n : Nat) (s : σ) (out : List (List Char)) :
    runLines C name (ls ++ [[]]) n s out = runLines C name ls n s out := by
  rw [runLines_append]
  cases hf : feedLines C name ls n s out with
  | inl v =>
    rcases v with ⟨n2, s2, o2⟩
    have hh : handleLine C name [] n2 s2 = .next s2 none := by
      simp [handleLine, stripLine_nil]
    simp [runLines, feedLines, hh, hf]
  | inr r =>
    rcases r with ⟨e, o⟩
    simp [runLines, hf]

lemma runLines_prefix_err {σ : Type} {C : LineConsumer σ} {name : String}
    {ls1 : List (List Char)} {n : Nat} {s : σ} {out o : List (List Char)}
    {e : String} (ls2 : List (List Char))
    (h : runLines C name ls1 n s out = (o, .err e)) :
    runLines C name (ls1 ++ ls2) n s out = (o, .err e) := by
  rw [runLines_append]
  unfold runLines at h
  cases hf : feedLines C name ls1 n s out with
  | inl v =>
    rcases v with ⟨n2, s2, o2⟩
    rw [hf] at h
    simp at h
  | inr r =>
    rcases r with ⟨e2, o2⟩
    rw [hf] at h
    simp only [Prod.mk.injEq, ScanResult.err.injEq] at h
    obtain ⟨rfl, rfl⟩ := h
    simp

lemma scanAll_concat_nl {σ : Type} (C : LineConsumer σ) (name : String)
    (xs : List Char) (s0 : σ) :
    scanAll (xs ++ ['\n']) name C s0 = scanAll xs name C s0 := by
  rw [scanAll_eq_runLines, scanAll_eq_runLines, logicalLines_concat_nl,
    logicalLines]
  by_cases h : (splitLines xs).2 = []
  · rw [if_pos h, List.append_nil, h]
    exact runLines_concat_nil C name (splitLines xs).1 1 s0 []
  · rw [if_neg h]

lemma scanAll_err_extend {σ : Type} {C : LineConsumer σ} {name : String}
    {xs : List Char} {s0 : σ} {out : List (List Char)} {e : String}
    (extra : List Char)
    (h : scanAll (xs ++ ['\n']) name C s0 = (out, .err e)) :
    scanAll (xs ++ '\n' :: extra) name C s0 = (out, .err e) := by
  rw [scanAll_eq_runLines] at h ⊢
  have hsplit : xs ++ '\n' :: extra = (xs ++ ['\n']) ++ extra := by simp
  rw [hsplit, logicalLines_append, splitLines_concat_nl]
  simp only [List.nil_append]
  rw [logicalLines_concat_nl] at h
  exact runLines_prefix_err (logicalLines extra) h

lemma testLineCollector_reason {target : List Char} {s s2 : List (List Char)}
    {l : List Char} {r : Option String}
    (h : (testLineCollector target false).consumeLine s l =
      (s2, ConsumeResult.reject r)) :
    r = some ("Rejected " ++ squote ++ String.mk target ++ squote) := by
  unfold testLineCollector at h
  simp only at h
  by_cases hc : l = target
  · rw [if_pos hc] at h
    simp only [Bool.false_eq_true, if_false, Prod.mk.injEq,
      ConsumeResult.reject.injEq] at h
    exact h.2.symm
  · rw [if_neg hc] at h
    simp at h

lemma testLineCollector_noreason {target : List Char} {s s2 : List (List Char)}
    {l : List Char} {r : Option String}
    (h : (testLineCollector target true).consumeLine s l =
      (s2, ConsumeResult.reject r)) :
    r = none := by
  unfold testLineCollector at h
  simp only at h
  by_cases hc : l = target
  · rw [if_pos hc] at h
    simp only [if_true, Prod.mk.injEq, ConsumeResult.reject.injEq] at h
    exact h.2.symm
  · rw [if_neg hc] at h
    simp at h

lemma GetOptional_eq (d : Descriptor) (file : Option FileDescriptor)
    (pre post : Bool) :
    GetOptionalDeprecatedAttribute d file pre post =
      if d.optionsDeprecated ||
          (match file with | some f => f.optionsDeprecated | none => false) then
        (if pre then " " else "") ++ "GPB_DEPRECATED_MSG(\"" ++
          (if d.optionsDeprecated then
            d.fullName ++ " is deprecated (see " ++ d.file.name ++ ")."
           else d.file.name ++ " is deprecated.") ++ "\")" ++
          (if post then "\n" else "")
      else "" := by
  unfold GetOptionalDeprecatedAttribute
  by_cases hd : d.optionsDeprecated
  · simp only [hd, Bool.not_true, Bool.false_eq_true, if_false, Bool.or_false,
      Bool.true_or, if_true]
    cases pre <;> cases post <;> simp [String.append_assoc] <;> rfl
  · have hd2 : d.optionsDeprecated = false := by simpa using hd
    cases file with
    | none => simp [hd2]
    | some f =>
      by_cases hf : f.optionsDeprecated
      · simp only [hd2, Bool.not_false, if_true, hf, Bool.false_or, if_true]
        cases pre <;> cases post <;> simp [String.append_assoc] <;> rfl
      · have hf2 : f.optionsDeprecated = false := by simpa using hf
        simp [hd2, hf2]

lemma decorated_ne_empty (pre post : Bool) (msg : String) :
    (if pre then " " else "") ++ "GPB_DEPRECATED_MSG(\"" ++ msg ++ "\")" ++
      (if post then "\n" else "") ≠ "" := by
  intro h
  have hlen := congrArg String.length h
  simp only [String.length_append] at hlen
  have h1 : 0 < "GPB_DEPRECATED_MSG(\"".length := by decide
  have h0 : "".length = 0 := by decide
  omega

/-- Claim C1: for every input byte string and every pair of chunk-delivery
strategies (any partition of the input into chunks, including whole-buffer
and one-byte-at-a-time), running the scan with the same consumer yields the
identical sequence of delivered lines and the identical success/failure
outcome, including an identical error string on failure. -/
theorem c1_chunk_invariance {σ : Type} (C : LineConsumer σ) (s0 : σ)
    (name : String) (input : List Char) (chunks1 chunks2 : List (List Char))
    (h1 : ∀ c ∈ chunks1, c ≠ []) (h2 : ∀ c ∈ chunks2, c ≠ [])
    (hj1 : chunks1.flatten = input) (hj2 : chunks2.flatten = input) :
    ParseSimpleStream chunks1 name C s0 = ParseSimpleStream chunks2 name C s0 := by
  rw [parse_eq_runLines C name chunks1 h1 s0,
    parse_eq_runLines C name chunks2 h2 s0, hj1, hj2]

/-- Witness for C1: delivering the input as one whole buffer and delivering
it one byte at a time produce the same result. -/
theorem c1_chunk_invariance_witness :
    (∀ c ∈ [['a', '\n', 'b']], c ≠ []) ∧
    (∀ c ∈ [['a'], ['\n'], ['b']], c ≠ []) ∧
    ParseSimpleStream [['a', '\n', 'b']] "dummy" collectorConsumer [] =
      ParseSimpleStream [['a'], ['\n'], ['b']] "dummy" collectorConsumer [] :=
  ⟨by decide, by decide,
    c1_chunk_invariance collectorConsumer [] "dummy" ['a', '\n', 'b']
      [['a', '\n', 'b']] [['a'], ['\n'], ['b']]
      (by decide) (by decide) (by decide) (by decide)⟩

/-- Claim C2: whenever a consumer that always supplies a rejection reason
makes the scan fail, the error string is exactly
`error: <name> Line <line_number>, <message>` with the caller-supplied
stream name, the rejected LogicalLine's 1-based ordinal and the consumer's
reason verbatim. -/
theorem c2_reject_error_format {σ : Type} (C : LineConsumer σ) (s0 : σ)
    (name : String) (input : List Char) (out : List (List Char)) (e : String)
    (hmsg : ∀ s l s2 r, C.consumeLine s l = (s2, ConsumeResult.reject r) →
      r ≠ none)
    (hscan : scanAll input name C s0 = (out, ScanResult.err e)) :
    ∃ j m, ∃ hj : j < (logicalLines input).length, ∃ s1 s2,
      C.consumeLine s1 (stripLine ((logicalLines input).get ⟨j, hj⟩)) =
        (s2, ConsumeResult.reject (some m)) ∧
      e = "error: " ++ name ++ " Line " ++ Nat.repr (j + 1) ++ ", " ++ m := by
  obtain ⟨j, hj, s1, s2, r, hne, hc, herr, hlen⟩ := scanAll_err hscan
  cases r with
  | none => exact absurd rfl (hmsg s1 _ s2 none hc)
  | some m => exact ⟨j, m, hj, s1, s2, hc, by rw [herr]; rfl⟩

/-- Witness for C2: the spec's concrete scenario — input `a\nb\nc` with
stream name `dummy`, rejecting `b` with reason `Rejected 'b'`, yields
exactly `error: dummy Line 2, Rejected 'b'`. -/
theorem c2_reject_error_format_witness :
    scanAll "a\nb\nc".toList "dummy" (testLineCollector ['b'] false) [] =
      ([['a']],
        ScanResult.err ("error: dummy Line 2, Rejected " ++ squote ++ "b" ++ squote)) ∧
    (∃ j m, ∃ hj : j < (logicalLines "a\nb\nc".toList).length, ∃ s1 s2,
      (testLineCollector ['b'] false).consumeLine s1
          (stripLine ((logicalLines "a\nb\nc".toList).get ⟨j, hj⟩)) =
        (s2, ConsumeResult.reject (some m)) ∧
      "error: dummy Line 2, Rejected " ++ squote ++ "b" ++ squote =
        "error: " ++ "dummy" ++ " Line " ++ Nat.repr (j + 1) ++ ", " ++ m) :=
  ⟨by decide,
    c2_reject_error_format (testLineCollector ['b'] false) [] "dummy"
      "a\nb\nc".toList [['a']]
      ("error: dummy Line 2, Rejected " ++ squote ++ "b" ++ squote)
      (fun s l s2 r h => by rw [testLineCollector_reason h]; simp)
      (by decide)⟩

/-- Claim C3: whenever a consumer that never supplies a rejection reason
makes the scan fail, the error carries the fixed message text
`ConsumeLine failed without setting an error.` in place of the missing
reason, and the error string is never empty. -/
theorem c3_silent_failure_diagnostic {σ : Type} (C : LineConsumer σ) (s0 : σ)
    (name : String) (input : List Char) (out : List (List Char)) (e : String)
    (hmsg : ∀ s l s2 r, C.consumeLine s l = (s2, ConsumeResult.reject r) →
      r = none)
    (hscan : scanAll input name C s0 = (out, ScanResult.err e)) :
    (∃ j, j < (logicalLines input).length ∧
      e = "error: " ++ name ++ " Line " ++ Nat.repr (j + 1) ++ ", " ++
        "ConsumeLine failed without setting an error.") ∧
    e ≠ "" := by
  obtain ⟨j, hj, s1, s2, r, hne, hc, herr, hlen⟩ := scanAll_err hscan
  have hr : r = none := hmsg s1 _ s2 r hc
  subst hr
  refine ⟨⟨j, hj, by rw [herr]; rfl⟩, ?_⟩
  rw [herr]
  exact mkError_ne_empty name (j + 1) none

/-- Witness for C3: the spec's concrete scenario — input `a\nb\nc` with
stream name `dummy`, rejecting `b` with no message, yields exactly
`error: dummy Line 2, ConsumeLine failed without setting an error.`. -/
theorem c3_silent_failure_diagnostic_witness :
    scanAll "a\nb\nc".toList "dummy" (testLineCollector ['b'] true) [] =
      ([['a']],
        ScanResult.err
          "error: dummy Line 2, ConsumeLine failed without setting an error.") ∧
    ((∃ j, j < (logicalLines "a\nb\nc".toList).length ∧
      "error: dummy Line 2, ConsumeLine failed without setting an error." =
        "error: " ++ "dummy" ++ " Line " ++ Nat.repr (j + 1) ++ ", " ++
          "ConsumeLine failed without setting an error.") ∧
    "error: dummy Line 2, ConsumeLine failed without setting an error." ≠ "") :=
  ⟨by decide,
    c3_silent_failure_diagnostic (testLineCollector ['b'] true) [] "dummy"
      "a\nb\nc".toList [['a']]
      "error: dummy Line 2, ConsumeLine failed without setting an error."
      (fun s l s2 r h => testLineCollector_noreason h)
      (by decide)⟩

/-- Claim C4: for every input and every rejection, the line number in the
error equals the rejected LogicalLine's 1-based position among all
LogicalLines of the raw input — including lines later dropped as blank or
comment-only — and never equals the count of lines actually delivered to
the consumer. -/
theorem c4_ordinal_fidelity {σ : Type} (C : LineConsumer σ) (s0 : σ)
    (name : String) (input : List Char) (out : List (List Char)) (e : String)
    (hscan : scanAll input name C s0 = (out, ScanResult.err e)) :
    ∃ j r, ∃ hj : j < (logicalLines input).length,
      (∃ s1 s2, C.consumeLine s1
          (stripLine ((logicalLines input).get ⟨j, hj⟩)) =
        (s2, ConsumeResult.reject r)) ∧
      e = mkError name (j + 1) r ∧
      out.length ≤ j ∧ j + 1 ≠ out.length := by
  obtain ⟨j, hj, s1, s2, r, hne, hc, herr, hlen⟩ := scanAll_err hscan
  exact ⟨j, r, hj, ⟨s1, s2, hc⟩, herr, hlen, by omega⟩

/-- Witness for C4: input `a\n#x\nb` rejecting `b` reports Line 3 — the
ordinal counts the dropped comment line — while only one line was
delivered. -/
theorem c4_ordinal_fidelity_witness :
    scanAll "a\n#x\nb".toList "dummy" (testLineCollector ['b'] false) [] =
      ([['a']],
        ScanResult.err ("error: dummy Line 3, Rejected " ++ squote ++ "b" ++ squote)) ∧
    (∃ j r, ∃ hj : j < (logicalLines "a\n#x\nb".toList).length,
      (∃ s1 s2, (testLineCollector ['b'] false).consumeLine s1
          (stripLine ((logicalLines "a\n#x\nb".toList).get ⟨j, hj⟩)) =
        (s2, ConsumeResult.reject r)) ∧
      ("error: dummy Line 3, Rejected " ++ squote ++ "b" ++ squote) =
        mkError "dummy" (j + 1) r ∧
      [['a']].length ≤ j ∧ j + 1 ≠ [['a']].length) :=
  ⟨by decide,
    c4_ordinal_fidelity (testLineCollector ['b'] false) [] "dummy"
      "a\n#x\nb".toList [['a']]
      ("error: dummy Line 3, Rejected " ++ squote ++ "b" ++ squote)
      (by decide)⟩

/-- Claim C5: a line is dropped (never passed to the consumer) if and only
if its content up to the first `#` is empty after trimming: the delivered
lines of any input are exactly the non-empty stripped forms of its
LogicalLines; a line starting with `#` never reaches the consumer; and a
`#` after real content truncates the line from that point before
trimming. -/
theorem c5_comment_elision :
    (∀ (input : List Char) (name : String),
      scanAll input name collectorConsumer [] =
        (((logicalLines input).map stripLine).filter (fun l => l != []),
          ScanResult.ok)) ∧
    (∀ rest : List Char, stripLine ('#' :: rest) = []) ∧
    (∀ a b : List Char, '#' ∉ a → stripLine (a ++ '#' :: b) = trimWsp a) := by
  refine ⟨?_, stripLine_hash, ?_⟩
  · intro input name
    rw [scanAll_eq_runLines]
    unfold runLines
    rw [feedLines_collector]
    simp
  · intro a b h
    unfold stripLine
    rw [stripComment_append_hash a b h]

/-- Witness for C5: truncation at `#` after real content, on the concrete
line `a #x`. -/
theorem c5_comment_elision_witness :
    ('#' ∉ ['a', ' ']) ∧
    stripLine (['a', ' '] ++ '#' :: ['x']) = trimWsp ['a', ' '] :=
  ⟨by decide, c5_comment_elision.2.2 ['a', ' '] ['x'] (by decide)⟩

/-- Claim C6: each concrete scenario of the spec succeeds with no error and
delivers exactly the listed lines. -/
theorem c6_concrete_scenarios :
    scanAll "".toList "dummy" collectorConsumer [] = ([], .ok) ∧
    scanAll "a".toList "dummy" collectorConsumer [] = (["a".toList], .ok) ∧
    scanAll " a c ".toList "dummy" collectorConsumer [] =
      (["a c".toList], .ok) ∧
    scanAll "abc\nd f".toList "dummy" collectorConsumer [] =
      (["abc".toList, "d f".toList], .ok) ∧
    scanAll "\n abc \n def \n\n".toList "dummy" collectorConsumer [] =
      (["abc".toList, "def".toList], .ok) ∧
    scanAll "# nothing".toList "dummy" collectorConsumer [] = ([], .ok) ∧
    scanAll "a # same line".toList "dummy" collectorConsumer [] =
      (["a".toList], .ok) ∧
    scanAll "a\n# line\nc".toList "dummy" collectorConsumer [] =
      (["a".toList, "c".toList], .ok) := by
  refine ⟨?_, ?_, ?_, ?_, ?_, ?_, ?_, ?_⟩ <;> decide

/-- Claim C7: a final newline creates no additional empty LogicalLine —
appending a newline to any input never changes the scan result; when the
input does not end in a newline, the non-empty unresolved buffer is
processed exactly once as one final LogicalLine at the current ordinal; and
the concrete input `a\nb\nc\n` rejecting `c` reports line number 3. -/
theorem c7_no_phantom_line :
    (∀ (σ : Type) (C : LineConsumer σ) (s0 : σ) (name : String)
        (xs : List Char),
      scanAll (xs ++ ['\n']) name C s0 = scanAll xs name C s0) ∧
    (∀ (σ : Type) (C : LineConsumer σ) (name : String) (buf : List Char)
        (n : Nat) (s : σ) (out : List (List Char)), buf ≠ [] →
      finishScan C name buf n s out = runLines C name [buf] n s out) ∧
    scanAll "a\nb\nc\n".toList "dummy" (testLineCollector ['c'] false) [] =
      ([['a'], ['b']],
        ScanResult.err ("error: dummy Line 3, Rejected " ++ squote ++ "c" ++ squote)) := by
  refine ⟨fun σ C s0 name xs => scanAll_concat_nl C name xs s0, ?_, by decide⟩
  intro σ C name buf n s out h
  rw [finishScan_eq_runLines, if_neg h]

/-- Witness for C7: the final-buffer clause applied to the concrete
unresolved buffer `c`. -/
theorem c7_no_phantom_line_witness :
    (['c'] : List Char) ≠ [] ∧
    finishScan (testLineCollector ['c'] false) "dummy" ['c'] 3 [] [['a'], ['b']] =
      runLines (testLineCollector ['c'] false) "dummy" [['c']] 3 [] [['a'], ['b']] :=
  ⟨by decide,
    c7_no_phantom_line.2.1 (List (List Char)) (testLineCollector ['c'] false)
      "dummy" ['c'] 3 [] [['a'], ['b']] (by decide)⟩

/-- Claim C8: once the consumer reports failure on some line, no subsequent
line is ever delivered to the consumer or reported — appending further
lines (or further buffered bytes after the line's newline) never changes
the delivered-line trace or the error of a failing scan. -/
theorem c8_rejection_stops_scan :
    (∀ (σ : Type) (C : LineConsumer σ) (name : String)
        (ls1 ls2 : List (List Char)) (n : Nat) (s : σ)
        (out o : List (List Char)) (e : String),
      runLines C name ls1 n s out = (o, ScanResult.err e) →
      runLines C name (ls1 ++ ls2) n s out = (o, ScanResult.err e)) ∧
    (∀ (σ : Type) (C : LineConsumer σ) (s0 : σ) (name : String)
        (xs extra : List Char) (out : List (List Char)) (e : String),
      scanAll (xs ++ ['\n']) name C s0 = (out, ScanResult.err e) →
      scanAll (xs ++ '\n' :: extra) name C s0 = (out, ScanResult.err e)) :=
  ⟨fun _ _ _ _ ls2 _ _ _ _ _ h => runLines_prefix_err ls2 h,
    fun _ _ _ _ _ extra _ _ h => scanAll_err_extend extra h⟩

/-- Witness for C8: rejecting `b` in `a\nb\n` gives the same trace and
error as rejecting `b` in `a\nb\nc\nd` — the lines after the rejection are
never processed. -/
theorem c8_rejection_stops_scan_witness :
    scanAll ("a\nb".toList ++ ['\n']) "dummy" (testLineCollector ['b'] false) [] =
      ([['a']],
        ScanResult.err ("error: dummy Line 2, Rejected " ++ squote ++ "b" ++ squote)) ∧
    scanAll ("a\nb".toList ++ '\n' :: "c\nd".toList) "dummy"
        (testLineCollector ['b'] false) [] =
      ([['a']],
        ScanResult.err ("error: dummy Line 2, Rejected " ++ squote ++ "b" ++ squote)) :=
  ⟨by decide,
    c8_rejection_stops_scan.2 (List (List Char)) (testLineCollector ['b'] false)
      [] "dummy" "a\nb".toList "c\nd".toList [['a']]
      ("error: dummy Line 2, Rejected " ++ squote ++ "b" ++ squote)
      (by decide)⟩

/-- Claim C9: the comment-stripping-and-trimming function is idempotent —
applying comment truncation and whitespace trimming a second time to an
already-stripped line returns it unchanged. -/
theorem c9_stripping_idempotent (s : List Char) :
    stripLine (stripLine s) = stripLine s :=
  stripLine_idem s

/-- Claim C10: `GetOptionalDeprecatedAttribute` returns the empty string if
and only if the descriptor's options are not deprecated and no file
argument with deprecated options is supplied; otherwise it returns
`GPB_DEPRECATED_MSG("<message>")` — the message naming the source file for
file-level deprecation and the descriptor's full name otherwise — prefixed
by a single space exactly when `preSpace` and suffixed by a newline exactly
when `postNewline`. -/
theorem c10_deprecated_attribute (d : Descriptor) (file : Option FileDescriptor)
    (pre post : Bool) :
    (GetOptionalDeprecatedAttribute d file pre post = "" ↔
      (d.optionsDeprecated = false ∧
        ∀ f, file = some f → f.optionsDeprecated = false)) ∧
    (d.optionsDeprecated = true →
      GetOptionalDeprecatedAttribute d file pre post =
        (if pre then " " else "") ++ "GPB_DEPRECATED_MSG(\"" ++
          (d.fullName ++ " is deprecated (see " ++ d.file.name ++ ").") ++
          "\")" ++ (if post then "\n" else "")) ∧
    (∀ f, d.optionsDeprecated = false → file = some f →
      f.optionsDeprecated = true →
      GetOptionalDeprecatedAttribute d file pre post =
        (if pre then " " else "") ++ "GPB_DEPRECATED_MSG(\"" ++
          (d.file.name ++ " is deprecated.") ++
          "\")" ++ (if post then "\n" else "")) := by
  rw [GetOptional_eq]
  refine ⟨?_, ?_, ?_⟩
  · by_cases hd : d.optionsDeprecated
    · simp only [hd, Bool.true_or, if_true]
      constructor
      · intro h
        exact absurd h (decorated_ne_empty pre post _)
      · rintro ⟨h1, _⟩
        exact Bool.noConfusion h1
    · have hd2 : d.optionsDeprecated = false := by simpa using hd
      cases file with
      | none => simp [hd2]
      | some f =>
        by_cases hf : f.optionsDeprecated
        · simp only [hd2, Bool.false_or, hf, if_true]
          constructor
          · intro h
            exact absurd h (decorated_ne_empty pre post _)
          · rintro ⟨_, h2⟩
            have h3 := h2 f rfl
            rw [hf] at h3
            exact Bool.noConfusion h3
        · have hf2 : f.optionsDeprecated = false := by simpa using hf
          simp [hd2, hf2]
  · intro hd
    simp [hd]
  · intro f hd hfile hf
    subst hfile
    simp [hd, hf]

/-- Witness for C10: a directly deprecated descriptor yields the
full-name message with the leading space and no trailing newline. -/
theorem c10_deprecated_attribute_witness :
    (Descriptor.mk true "MyMsg" (FileDescriptor.mk "foo.proto" false)).optionsDeprecated
        = true ∧
    GetOptionalDeprecatedAttribute
        (Descriptor.mk true "MyMsg" (FileDescriptor.mk "foo.proto" false))
        none true false =
      (if true then " " else "") ++ "GPB_DEPRECATED_MSG(\"" ++
        ("MyMsg" ++ " is deprecated (see " ++ "foo.proto" ++ ").") ++
        "\")" ++ (if false then "\n" else "") :=
  ⟨rfl,
    (c10_deprecated_attribute
      (Descriptor.mk true "MyMsg" (FileDescriptor.mk "foo.proto" false))
      none true false).2.1 rfl⟩
